import Mathlib

/-!
Shallow embedding of the reconciliation core of the
nomad-traefik-cloudflare-controller repository, together with proofs about
its behaviour.  The definitions mirror, function by function, the Go sources:
cloudflare/cloudflare.go (record diffing and convergence), nomad/client.go
(node resolution and event normalisation), config loading, and the readiness
handling of the control loop in main.go.
-/

namespace Controller

/-- A DNS address record as listed from the provider, mirroring the Go
struct types.DNSRecord.  The Go field named Type is modelled as RType,
since that word is reserved in Lean. -/
structure DNSRecord where
  ID : String
  Name : String
  RType : String
  Content : String
  TTL : Int
deriving DecidableEq

/-- Node information, mirroring the Go struct types.NodeInfo. -/
structure NodeInfo where
  ID : String
  Name : String
  PublicIPAddress : String
  Status : String
deriving DecidableEq

/-- One Nomad allocation, restricted to the fields read by
GetTraefikNodes in nomad/client.go: the client status and the node id. -/
structure Allocation where
  ClientStatus : String
  NodeID : String
deriving DecidableEq

/-- A Nomad node record, restricted to the fields read by GetTraefikNodes:
id, name, the attribute unique.network.ip-address, and status. -/
structure NomadNode where
  ID : String
  Name : String
  IPAttribute : String
  Status : String
deriving DecidableEq

/-- One value of the loosely typed event payload map, modelling Go's
interface value: either a string or some non-string shape. -/
inductive PayloadVal where
  | str : String → PayloadVal
  | other : PayloadVal
deriving DecidableEq

/-- A raw Nomad event, restricted to the fields read by processEvent in
nomad/client.go: the type name, the stream index, and the payload map
(which may be nil, modelled as none).  The Go field named Type is modelled
as EvType. -/
structure NomadEvent where
  EvType : String
  Index : Nat
  Payload : Option (List (String × PayloadVal))
deriving DecidableEq

/-- The normalised event forwarded to the control loop, mirroring the Go
struct types.Event.  The timestamp is the nanosecond count passed to
time.Unix, and the details map is always set to a non-nil map by
processEvent, recorded here by the flag DetailsNonNil. -/
structure Event where
  EvType : String
  Timestamp : Nat
  NodeID : String
  JobID : String
  DetailsNonNil : Bool
deriving DecidableEq

/-- The application configuration, mirroring the Go struct config.Config. -/
structure Config where
  NomadAddress : String
  NomadToken : String
  CloudflareToken : String
  CloudflareZoneId : String
  TraefikJobName : String
  DNSRecordName : String
  LogLevel : String
deriving DecidableEq

/-- A Go map update m[k] = v on a map represented as an association list:
overwrite the binding when the key is present, append a fresh binding
otherwise. -/
def insertMap {β : Type} : List (String × β) → String → β → List (String × β)
  | [], k, v => [(k, v)]
  | p :: m, k, v => if p.1 == k then (k, v) :: m else p :: insertMap m k v

/-- A Go map lookup v, ok := m[k] on the association-list representation. -/
def lookupMap {β : Type} : List (String × β) → String → Option β
  | [], _ => none
  | p :: m, k => if p.1 == k then some p.2 else lookupMap m k

/-- The content-to-id map currentTargets built by SyncARecords in
cloudflare/cloudflare.go (lines 134 through 137): one Go map assignment per
listed record, so a later record with the same content overwrites the id of
an earlier one. -/
def buildTargets (records : List DNSRecord) : List (String × String) :=
  records.foldl (fun m r => insertMap m r.Content r.ID) []

/-- The operations computed by one SyncARecords pass
(cloudflare/cloudflare.go lines 124 through 161), given the record list
returned by getARecords.  The first component is the list of record ids
passed to DeleteARecord and the second the list of targets passed to
CreateARecord, in program order.  When the target list is empty the code
takes the delete-everything branch; otherwise it deletes the map entries
whose content is not a target and creates the targets with no map entry. -/
def syncOps (targetIPs : List String) (records : List DNSRecord) :
    List String × List String :=
  if targetIPs.length = 0 then
    (records.map (fun r => r.ID), [])
  else
    let currentTargets := buildTargets records
    ((currentTargets.filter (fun p => !(targetIPs.contains p.1))).map (fun p => p.2),
     targetIPs.filter (fun ip => (lookupMap currentTargets ip).isNone))

/-- The observable outcome of one SyncARecords call: the delete calls
attempted (record id paired with that call's success), the create calls
attempted (target paired with success), and whether the function returned
a nil error. -/
structure SyncTrace where
  deletes : List (String × Bool)
  creates : List (String × Bool)
  ok : Bool
deriving DecidableEq

/-- SyncARecords as a trace function.  listResult is the outcome of
getARecords (none when listing failed, in which case the function returns
early with an error); deleteOk and createOk give the outcome of each
per-record provider call.  In the Go code a failed DeleteARecord or
CreateARecord call is only logged inside the loop body, so the set of
attempted calls and the returned error are independent of those outcomes. -/
def syncARecords (listResult : Option (List DNSRecord))
    (deleteOk createOk : String → Bool) (targetIPs : List String) : SyncTrace :=
  match listResult with
  | none => { deletes := [], creates := [], ok := false }
  | some records =>
    { deletes := (syncOps targetIPs records).1.map (fun id => (id, deleteOk id)),
      creates := (syncOps targetIPs records).2.map (fun t => (t, createOk t)),
      ok := true }

/-- The record set after applying one pass's operations to the observed
records: records whose id was passed to DeleteARecord disappear, and the
provider materialises one new record per create call (newRecords, whose
contents must equal the created targets; their ids are provider-assigned). -/
def applyOps (targetIPs : List String) (records newRecords : List DNSRecord) :
    List DNSRecord :=
  records.filter (fun r => !((syncOps targetIPs records).1.contains r.ID)) ++ newRecords

/-- The address extraction of syncDNSRecords in main.go (lines 200 through
207): a node contributes its public address exactly when its status is
ready and the address is non-empty. -/
def extractIPs (nodes : List NodeInfo) : List String :=
  (nodes.filter (fun n => n.Status == "ready" && n.PublicIPAddress != "")).map
    (fun n => n.PublicIPAddress)

/-- The NodeInfo value constructed by GetTraefikNodes from a resolved
Nomad node (nomad/client.go lines 74 through 79). -/
def nodeInfoOf (n : NomadNode) : NodeInfo :=
  { ID := n.ID, Name := n.Name, PublicIPAddress := n.IPAttribute, Status := n.Status }

/-- One iteration of the allocation loop of GetTraefikNodes
(nomad/client.go lines 52 through 81): a non-running allocation is skipped,
a failed node lookup is logged and skipped, and otherwise the node record
is written into the map under its node id. -/
def nodeMapStep (nodeLookup : String → Option NomadNode)
    (m : List (String × NodeInfo)) (alloc : Allocation) : List (String × NodeInfo) :=
  if alloc.ClientStatus == "running" then
    match nodeLookup alloc.NodeID with
    | none => m
    | some node => insertMap m node.ID (nodeInfoOf node)
  else m

/-- GetTraefikNodes (nomad/client.go lines 41 through 89) after a
successful allocation listing: fold the allocation loop over an empty map
and return the map values. -/
def getTraefikNodes (nodeLookup : String → Option NomadNode)
    (allocations : List Allocation) : List NodeInfo :=
  (allocations.foldl (nodeMapStep nodeLookup) []).map (fun p => p.2)

/-- Best effort extraction of a string payload field, as done for NodeID
and JobID in processEvent: a nil payload, an absent key, or a non-string
value all leave the field at its zero value, the empty string. -/
def payloadString (payload : Option (List (String × PayloadVal))) (key : String) :
    String :=
  match payload with
  | none => ""
  | some m =>
    match lookupMap m key with
    | some (PayloadVal.str s) => s
    | some PayloadVal.other => ""
    | none => ""

/-- Whether the payload carries the given key with a string value. -/
def payloadStringPresent (payload : Option (List (String × PayloadVal)))
    (key : String) : Bool :=
  match payload with
  | none => false
  | some m =>
    match lookupMap m key with
    | some (PayloadVal.str _) => true
    | some PayloadVal.other => false
    | none => false

/-- The event-type allow-list of processEvent in nomad/client.go. -/
def allowedEventTypes : List String :=
  ["AllocationUpdated", "NodeUpdated", "JobRegistered", "JobDeregistered"]

/-- processEvent (nomad/client.go lines 143 through 171): events of a type
outside the allow-list yield none; allowed events yield one normalised
event whose NodeID and JobID are extracted best effort from the payload
and whose details map is always non-nil. -/
def processEvent (e : NomadEvent) : Option Event :=
  if e.EvType == "AllocationUpdated" || e.EvType == "NodeUpdated"
      || e.EvType == "JobRegistered" || e.EvType == "JobDeregistered" then
    some { EvType := e.EvType, Timestamp := e.Index,
           NodeID := payloadString e.Payload "NodeID",
           JobID := payloadString e.Payload "JobID",
           DetailsNonNil := true }
  else
    none

/-- getEnvOrDefault from the config package: the environment value when
non-empty, the default otherwise.  An environment is modelled as a total
function from variable names to values, with the empty string standing for
an unset variable, exactly as os.Getenv reports it. -/
def getEnvOrDefault (env : String → String) (key defaultValue : String) : String :=
  if env key != "" then env key else defaultValue

/-- LoadConfig from the config package (the variant exercised by
config_test.go): builds the Config from the environment and then rejects
it when CLOUDFLARE_API_TOKEN, CLOUDFLARE_ZONE_ID or NOMAD_TOKEN is empty.
TRAEFIK_JOB_NAME and DNS_RECORD_NAME are read but not validated. -/
def LoadConfig (env : String → String) : Except String Config :=
  let config : Config :=
    { NomadAddress := getEnvOrDefault env "NOMAD_ADDR" "http://localhost:8686",
      NomadToken := env "NOMAD_TOKEN",
      CloudflareToken := env "CLOUDFLARE_API_TOKEN",
      CloudflareZoneId := env "CLOUDFLARE_ZONE_ID",
      TraefikJobName := env "TRAEFIK_JOB_NAME",
      DNSRecordName := env "DNS_RECORD_NAME",
      LogLevel := getEnvOrDefault env "LOG_LEVEL" "info" }
  if config.CloudflareToken == "" then
    Except.error "CLOUDFLARE_API_TOKEN is not set and is required."
  else if config.CloudflareZoneId == "" then
    Except.error "CLOUDFLARE_ZONE_ID is not set and is required."
  else if config.NomadToken == "" then
    Except.error "Nomad token is not set and is required."
  else
    Except.ok config

/-- A reconciliation trigger inside the main select loop of Run in
main.go: a received cluster event or the periodic ticker. -/
inductive SyncTrigger where
  | event : SyncTrigger
  | tick : SyncTrigger
deriving DecidableEq

/-- The readiness-relevant state owned by the control loop. -/
structure ControllerState where
  ready : Bool
deriving DecidableEq

/-- The startup pass of Run (main.go lines 129 through 137): SetReady true
is called exactly when the initial sync returned no error. -/
def handleInitialSync (ok : Bool) (s : ControllerState) : ControllerState :=
  if ok then { s with ready := true } else s

/-- One loop iteration of Run (main.go lines 156 through 183) handling an
event or ticker trigger: the sync is run and its error only logged; the
readiness state is not touched in either branch. -/
def handleLoopSync (_t : SyncTrigger) (_ok : Bool) (s : ControllerState) :
    ControllerState :=
  s

/-- The readiness state after Run has performed its startup pass (with
outcome initialOk) and then the given sequence of event or ticker passes,
each paired with that pass's outcome. -/
def runReadiness (initialOk : Bool) (loopPasses : List (SyncTrigger × Bool)) :
    ControllerState :=
  loopPasses.foldl (fun s p => handleLoopSync p.1 p.2 s)
    (handleInitialSync initialOk { ready := false })

/-! Lemmas about the association-list model of Go maps. -/

theorem mem_insertMap {β : Type} (m : List (String × β)) (k : String) (v : β)
    (p : String × β) (hp : p ∈ insertMap m k v) : p ∈ m ∨ p = (k, v) := by
  induction m with
  | nil =>
    simp only [insertMap, List.mem_singleton] at hp
    exact Or.inr hp
  | cons q m ih =>
    simp only [insertMap] at hp
    split at hp
    · rcases List.mem_cons.mp hp with h1 | h1
      · exact Or.inr h1
      · exact Or.inl (List.mem_cons_of_mem _ h1)
    · rcases List.mem_cons.mp hp with h1 | h1
      · subst h1
        exact Or.inl (List.mem_cons_self _ _)
      · rcases ih h1 with h2 | h2
        · exact Or.inl (List.mem_cons_of_mem _ h2)
        · exact Or.inr h2

theorem lookup_insertMap {β : Type} (m : List (String × β)) (k k' : String) (v : β) :
    lookupMap (insertMap m k v) k' = if k = k' then some v else lookupMap m k' := by
  induction m with
  | nil =>
    by_cases h : k = k' <;> simp [insertMap, lookupMap, h]
  | cons q m ih =>
    by_cases hq : q.1 = k
    · have hins : insertMap (q :: m) k v = (k, v) :: m := by
        simp [insertMap, hq]
      rw [hins]
      by_cases h : k = k'
      · subst h
        simp [lookupMap]
      · have h2 : ¬ q.1 = k' := by rw [hq]; exact h
        simp [lookupMap, h, h2]
    · have hins : insertMap (q :: m) k v = q :: insertMap m k v := by
        simp [insertMap, hq]
      rw [hins]
      by_cases hk : q.1 = k'
      · have h : ¬ k = k' := fun hc => hq (by rw [hc]; exact hk)
        simp [lookupMap, hk, h]
      · simp [lookupMap, hk, ih]

theorem insertMap_of_not_mem {β : Type} (m : List (String × β)) (k : String) (v : β)
    (h : ∀ p ∈ m, p.1 ≠ k) : insertMap m k v = m ++ [(k, v)] := by
  induction m with
  | nil => simp [insertMap]
  | cons q m ih =>
    have hq : ¬ q.1 = k := h q (List.mem_cons_self q m)
    simp only [insertMap, beq_iff_eq, hq, if_false, List.cons_append, List.cons.injEq,
      true_and]
    exact ih (fun p hp => h p (List.mem_cons_of_mem _ hp))

theorem insertMap_keys_nodup {β : Type} (m : List (String × β)) (k : String) (v : β)
    (h : (m.map Prod.fst).Nodup) : ((insertMap m k v).map Prod.fst).Nodup := by
  induction m with
  | nil => simp [insertMap]
  | cons q m ih =>
    simp only [List.map_cons, List.nodup_cons] at h
    by_cases hq : q.1 = k
    · have hins : insertMap (q :: m) k v = (k, v) :: m := by
        simp [insertMap, hq]
      rw [hins]
      simp only [List.map_cons, List.nodup_cons]
      exact ⟨hq ▸ h.1, h.2⟩
    · have hins : insertMap (q :: m) k v = q :: insertMap m k v := by
        simp [insertMap, hq]
      rw [hins]
      simp only [List.map_cons, List.nodup_cons]
      refine ⟨?_, ih h.2⟩
      intro hc
      rcases List.mem_map.mp hc with ⟨p, hp, hpe⟩
      rcases mem_insertMap m k v p hp with h1 | h1
      · exact h.1 (hpe ▸ List.mem_map_of_mem Prod.fst h1)
      · apply hq
        rw [← hpe, h1]

theorem lookupMap_eq_none_iff {β : Type} (m : List (String × β)) (k : String) :
    lookupMap m k = none ↔ ∀ p ∈ m, p.1 ≠ k := by
  induction m with
  | nil => simp [lookupMap]
  | cons q m ih =>
    by_cases hq : q.1 = k
    · simp [lookupMap, hq]
    · simp [lookupMap, hq, ih]

theorem lookupMap_mem {β : Type} (m : List (String × β)) (k : String) (v : β)
    (h : lookupMap m k = some v) : (k, v) ∈ m := by
  induction m with
  | nil => simp [lookupMap] at h
  | cons q m ih =>
    by_cases hq : q.1 = k
    · simp only [lookupMap, beq_iff_eq, hq, if_true, Option.some.injEq] at h
      refine List.mem_cons.mpr (Or.inl ?_)
      rw [← hq, ← h]
    · simp only [lookupMap, beq_iff_eq, hq, if_false] at h
      exact List.mem_cons_of_mem _ (ih h)

theorem lookupMap_of_mem_nodup {β : Type} (m : List (String × β)) (p : String × β)
    (hm : (m.map Prod.fst).Nodup) (hp : p ∈ m) : lookupMap m p.1 = some p.2 := by
  induction m with
  | nil => simp at hp
  | cons q m ih =>
    simp only [List.map_cons, List.nodup_cons] at hm
    rcases List.mem_cons.mp hp with h1 | h1
    · subst h1
      simp [lookupMap]
    · have hq : ¬ q.1 = p.1 := by
        intro hc
        exact hm.1 (by rw [hc]; exact List.mem_map_of_mem Prod.fst h1)
      simp [lookupMap, hq, ih hm.2 h1]


/-! Lemmas about the content-to-id map built by SyncARecords. -/

/-- The id of the last listed record carrying the given content, which is
the value the Go map ends up holding for that content key. -/
def lastIdFor (records : List DNSRecord) (c : String) : Option String :=
  (records.reverse.find? (fun r => r.Content == c)).map (fun r => r.ID)

theorem foldl_insert_lookup (R : List DNSRecord) (acc : List (String × String))
    (c : String) :
    lookupMap (R.foldl (fun m r => insertMap m r.Content r.ID) acc) c =
      (lastIdFor R c).or (lookupMap acc c) := by
  induction R generalizing acc with
  | nil => simp [lastIdFor]
  | cons r R ih =>
    simp only [List.foldl_cons, ih, lastIdFor, List.reverse_cons, List.find?_append]
    cases hfind : R.reverse.find? (fun r => r.Content == c) with
    | some r' => simp
    | none =>
      by_cases hc : r.Content = c
      · have hc' : (r.Content == c) = true := by simp [hc]
        simp [List.find?, hc', lookup_insertMap, hc]
      · have hc' : (r.Content == c) = false := by simp [hc]
        simp [List.find?, hc', lookup_insertMap, hc]

theorem lookup_buildTargets (R : List DNSRecord) (c : String) :
    lookupMap (buildTargets R) c = lastIdFor R c := by
  rw [buildTargets, foldl_insert_lookup]
  simp [lookupMap]

theorem lastIdFor_eq_none_iff (R : List DNSRecord) (c : String) :
    lastIdFor R c = none ↔ c ∉ R.map (fun r => r.Content) := by
  simp [lastIdFor, Option.map_eq_none', List.find?_eq_none, List.mem_reverse,
    List.mem_map]

theorem lookup_buildTargets_isNone (R : List DNSRecord) (c : String) :
    (lookupMap (buildTargets R) c).isNone = true ↔ c ∉ R.map (fun r => r.Content) := by
  rw [lookup_buildTargets, Option.isNone_iff_eq_none, lastIdFor_eq_none_iff]

theorem mem_foldl_insert (R : List DNSRecord) (acc : List (String × String))
    (p : String × String) (hp : p ∈ R.foldl (fun m r => insertMap m r.Content r.ID) acc) :
    p ∈ acc ∨ p.1 ∈ R.map (fun r => r.Content) := by
  induction R generalizing acc with
  | nil => exact Or.inl hp
  | cons r R ih =>
    simp only [List.foldl_cons] at hp
    rcases ih _ hp with h1 | h1
    · rcases mem_insertMap _ _ _ _ h1 with h2 | h2
      · exact Or.inl h2
      · right
        rw [h2]
        exact List.mem_map_of_mem _ (List.mem_cons_self r R)
    · right
      simp only [List.map_cons, List.mem_cons]
      exact Or.inr h1

theorem mem_buildTargets_key (R : List DNSRecord) (p : String × String)
    (hp : p ∈ buildTargets R) : p.1 ∈ R.map (fun r => r.Content) := by
  rcases mem_foldl_insert R [] p hp with h | h
  · simp at h
  · exact h

theorem foldl_insert_keys_nodup (R : List DNSRecord) (acc : List (String × String))
    (hacc : (acc.map Prod.fst).Nodup) :
    ((R.foldl (fun m r => insertMap m r.Content r.ID) acc).map Prod.fst).Nodup := by
  induction R generalizing acc with
  | nil => exact hacc
  | cons r R ih =>
    simp only [List.foldl_cons]
    exact ih _ (insertMap_keys_nodup _ _ _ hacc)

theorem buildTargets_keys_nodup (R : List DNSRecord) :
    ((buildTargets R).map Prod.fst).Nodup :=
  foldl_insert_keys_nodup R [] (by simp)

theorem mem_buildTargets_val (R : List DNSRecord) (p : String × String)
    (hp : p ∈ buildTargets R) : lastIdFor R p.1 = some p.2 := by
  rw [← lookup_buildTargets]
  exact lookupMap_of_mem_nodup _ _ (buildTargets_keys_nodup R) hp

theorem foldl_insert_eq_of_nodup (R : List DNSRecord) (acc : List (String × String))
    (hdisj : ∀ r ∈ R, ∀ p ∈ acc, p.1 ≠ r.Content)
    (hnd : (R.map (fun r => r.Content)).Nodup) :
    R.foldl (fun m r => insertMap m r.Content r.ID) acc =
      acc ++ R.map (fun r => (r.Content, r.ID)) := by
  induction R generalizing acc with
  | nil => simp
  | cons r R ih =>
    simp only [List.map_cons, List.nodup_cons] at hnd
    simp only [List.foldl_cons]
    rw [insertMap_of_not_mem acc r.Content r.ID
      (fun p hp => hdisj r (List.mem_cons_self r R) p hp)]
    rw [ih (acc ++ [(r.Content, r.ID)]) ?_ hnd.2]
    · simp
    · intro r' hr' p hp
      rcases List.mem_append.mp hp with h1 | h1
      · exact hdisj r' (List.mem_cons_of_mem _ hr') p h1
      · simp only [List.mem_singleton] at h1
        rw [h1]
        intro hc
        have hc' : r.Content = r'.Content := hc
        apply hnd.1
        rw [hc']
        exact List.mem_map_of_mem _ hr'


theorem buildTargets_eq_of_nodup (R : List DNSRecord)
    (hnd : (R.map (fun r => r.Content)).Nodup) :
    buildTargets R = R.map (fun r => (r.Content, r.ID)) := by
  rw [buildTargets, foldl_insert_eq_of_nodup R [] (by simp) hnd]
  simp


/-! Lemmas about the operations computed by one SyncARecords pass. -/

theorem syncOps_nil_left (R : List DNSRecord) :
    syncOps [] R = (R.map (fun r => r.ID), []) := by
  simp [syncOps]

theorem syncOps_pos (D : List String) (R : List DNSRecord) (hD : D ≠ []) :
    syncOps D R =
      (((buildTargets R).filter (fun p => !(D.contains p.1))).map (fun p => p.2),
       D.filter (fun ip => (lookupMap (buildTargets R) ip).isNone)) := by
  have h : ¬ D.length = 0 := by simpa [List.length_eq_zero] using hD
  simp [syncOps, h]

theorem filter_map_pair (R : List DNSRecord) (p : String → Bool) :
    ((R.map (fun r => (r.Content, r.ID))).filter (fun q => p q.1)).map (fun q => q.2)
      = (R.filter (fun r => p r.Content)).map (fun r => r.ID) := by
  induction R with
  | nil => rfl
  | cons r R ih =>
    by_cases h : p r.Content
    · simp only [List.map_cons, List.filter_cons]
      simp [h, ih]
    · have h' : p r.Content = false := by simpa using h
      simp only [List.map_cons, List.filter_cons]
      simp [h', ih]

theorem syncOps_deletes_of_nodup (D : List String) (R : List DNSRecord)
    (hR : (R.map (fun r => r.Content)).Nodup) :
    (syncOps D R).1 = (R.filter (fun r => !(D.contains r.Content))).map (fun r => r.ID) := by
  cases D with
  | nil =>
    rw [syncOps_nil_left]
    have : ∀ r ∈ R, (!(List.contains [] r.Content)) = true := by
      intro r _
      rfl
    rw [List.filter_eq_self.mpr this]
  | cons d D =>
    rw [syncOps_pos _ R (by simp), buildTargets_eq_of_nodup R hR]
    exact filter_map_pair R (fun c => !((d :: D).contains c))

theorem syncOps_creates (D : List String) (R : List DNSRecord) :
    (syncOps D R).2 = D.filter (fun a => !((R.map (fun r => r.Content)).contains a)) := by
  cases D with
  | nil => rw [syncOps_nil_left]; rfl
  | cons d D =>
    rw [syncOps_pos _ R (by simp)]
    refine List.filter_congr ?_
    intro a _
    show (lookupMap (buildTargets R) a).isNone
        = !((R.map (fun r => r.Content)).contains a)
    by_cases h : a ∈ R.map (fun r => r.Content)
    · have hne : lookupMap (buildTargets R) a ≠ none := by
        simp [lookup_buildTargets, lastIdFor_eq_none_iff, h]
      cases hopt : lookupMap (buildTargets R) a with
      | none => exact absurd hopt hne
      | some v => simpa using h
    · have h1 : lookupMap (buildTargets R) a = none := by
        rw [lookup_buildTargets, lastIdFor_eq_none_iff]
        exact h
      rw [h1]
      simpa using h

theorem mem_syncOps_deletes (D : List String) (R : List DNSRecord) (hD : D ≠ [])
    (id : String) :
    id ∈ (syncOps D R).1 ↔
      ∃ c, c ∉ D ∧ lastIdFor R c = some id := by
  rw [syncOps_pos D R hD]
  simp only [List.mem_map, List.mem_filter]
  constructor
  · rintro ⟨p, ⟨hp, hnd⟩, hid⟩
    refine ⟨p.1, by simpa using hnd, ?_⟩
    rw [mem_buildTargets_val R p hp, hid]
  · rintro ⟨c, hc, hlast⟩
    refine ⟨(c, id), ⟨?_, by simpa using hc⟩, rfl⟩
    rw [← lookup_buildTargets] at hlast
    exact lookupMap_mem _ _ _ hlast


/-! Helper facts about payload decoding and the control loop. -/

theorem payloadString_of_not_present (payload : Option (List (String × PayloadVal)))
    (key : String) (h : payloadStringPresent payload key = false) :
    payloadString payload key = "" := by
  cases payload with
  | none => rfl
  | some m =>
    cases hl : lookupMap m key with
    | none => simp [payloadString, hl]
    | some v =>
      cases v with
      | str sv =>
        exfalso
        simp [payloadStringPresent, hl] at h
      | other => simp [payloadString, hl]

theorem map_fst_pair {γ : Type} (f : String → γ) (l : List String) :
    (l.map (fun x => (x, f x))).map Prod.fst = l := by
  induction l with
  | nil => rfl
  | cons a l ih => simp [ih]

theorem foldl_handleLoopSync (l : List (SyncTrigger × Bool)) (s : ControllerState) :
    l.foldl (fun s p => handleLoopSync p.1 p.2 s) s = s := by
  induction l generalizing s with
  | nil => rfl
  | cons p l ih => exact ih s

/-! The claims. -/

/-- Claim C2: whenever the desired address set is empty, the converger
issues one delete call for every observed record, in order, and no create
call, whatever the records are and however the individual calls fare. -/
theorem syncARecords_empty_desired (R : List DNSRecord)
    (deleteOk createOk : String → Bool) :
    (syncARecords (some R) deleteOk createOk []).deletes.map Prod.fst
        = R.map (fun r => r.ID)
      ∧ (syncARecords (some R) deleteOk createOk []).creates = [] := by
  constructor <;> simp [syncARecords, syncOps_nil_left]

/-- Claim C3: an address belongs to the extracted desired set exactly when
some listed node carries it with status ready and a non-empty public
address; nodes with any other status or an empty address contribute
nothing. -/
theorem extractIPs_eligibility (nodes : List NodeInfo) (a : String) :
    a ∈ extractIPs nodes ↔
      ∃ n ∈ nodes, n.Status = "ready" ∧ n.PublicIPAddress ≠ "" ∧ n.PublicIPAddress = a := by
  simp only [extractIPs, List.mem_map, List.mem_filter]
  constructor
  · rintro ⟨n, ⟨hn, hcond⟩, ha⟩
    have hc : n.Status = "ready" ∧ n.PublicIPAddress ≠ "" := by simpa using hcond
    exact ⟨n, hn, hc.1, hc.2, ha⟩
  · rintro ⟨n, hn, h1, h2, ha⟩
    exact ⟨n, ⟨hn, by simp [h1, h2]⟩, ha⟩

/-- Claim C4: the attempted delete and create calls of a SyncARecords pass
are exactly the computed operations, independent of how many of the
individual provider calls fail, and the pass returns success exactly when
the initial record listing succeeded. -/
theorem syncARecords_error_tolerance (listResult : Option (List DNSRecord))
    (deleteOk createOk : String → Bool) (targetIPs : List String) :
    ((syncARecords listResult deleteOk createOk targetIPs).ok = listResult.isSome)
      ∧ (∀ R, listResult = some R →
          (syncARecords listResult deleteOk createOk targetIPs).deletes.map Prod.fst
              = (syncOps targetIPs R).1
            ∧ (syncARecords listResult deleteOk createOk targetIPs).creates.map Prod.fst
              = (syncOps targetIPs R).2) := by
  cases listResult with
  | none => simp [syncARecords]
  | some R =>
    refine ⟨rfl, ?_⟩
    intro R' hR
    obtain rfl : R = R' := by injection hR
    exact ⟨map_fst_pair _ _, map_fst_pair _ _⟩

/-- Witness for claim C4: a pass whose every delete call fails still
attempts the full computed operation list and still reports success. -/
theorem syncARecords_error_tolerance_witness :
    (syncARecords (some [{ ID := "id1", Name := "app.example.com", RType := "A",
                           Content := "1.1.1.1", TTL := 0 }]) (fun _ => false)
        (fun _ => false) ["2.2.2.2"]).deletes.map Prod.fst
      = (syncOps ["2.2.2.2"] [{ ID := "id1", Name := "app.example.com", RType := "A",
                                Content := "1.1.1.1", TTL := 0 }]).1 :=
  ((syncARecords_error_tolerance
    (some [{ ID := "id1", Name := "app.example.com", RType := "A",
             Content := "1.1.1.1", TTL := 0 }])
    (fun _ => false) (fun _ => false) ["2.2.2.2"]).2 _ rfl).1

/-- Claim C5 counterexample: an execution whose startup pass fails and
whose later periodic pass succeeds, so at least one pass succeeds, yet the
process is never marked ready: SetReady is only reachable from the startup
pass in Run. -/
theorem runReadiness_late_success_not_ready :
    (runReadiness false [(SyncTrigger.tick, true)]).ready = false
      ∧ [(SyncTrigger.tick, true)].any (fun p => p.2) = true := by
  constructor <;> rfl

/-- Claim C5 as amended: the control loop marks the process ready exactly
when the startup pass succeeded; the outcomes of all later event-driven
and periodic passes never change the readiness state. -/
theorem runReadiness_eq_initial (initialOk : Bool)
    (loopPasses : List (SyncTrigger × Bool)) :
    (runReadiness initialOk loopPasses).ready = initialOk := by
  rw [runReadiness, foldl_handleLoopSync]
  cases initialOk <;> rfl

/-- Claim C6: processEvent drops every event whose type is outside the
allow-list, and for an allowed event it produces exactly one normalised
event, with an empty NodeID or JobID whenever the payload lacks that key
as a string value. -/
theorem processEvent_allowlist (e : NomadEvent) :
    (e.EvType ∉ allowedEventTypes → processEvent e = none)
      ∧ (e.EvType ∈ allowedEventTypes →
          ∃ ev, processEvent e = some ev
            ∧ (payloadStringPresent e.Payload "NodeID" = false → ev.NodeID = "")
            ∧ (payloadStringPresent e.Payload "JobID" = false → ev.JobID = "")) := by
  have hcond : (e.EvType == "AllocationUpdated" || e.EvType == "NodeUpdated"
      || e.EvType == "JobRegistered" || e.EvType == "JobDeregistered") = true
      ↔ e.EvType ∈ allowedEventTypes := by
    simp [allowedEventTypes, or_assoc]
  constructor
  · intro hmem
    have hc : ¬ (e.EvType == "AllocationUpdated" || e.EvType == "NodeUpdated"
        || e.EvType == "JobRegistered" || e.EvType == "JobDeregistered") = true := by
      rw [hcond]
      exact hmem
    simp [processEvent, hc]
  · intro hmem
    have hc : (e.EvType == "AllocationUpdated" || e.EvType == "NodeUpdated"
        || e.EvType == "JobRegistered" || e.EvType == "JobDeregistered") = true :=
      hcond.mpr hmem
    refine ⟨{ EvType := e.EvType, Timestamp := e.Index,
              NodeID := payloadString e.Payload "NodeID",
              JobID := payloadString e.Payload "JobID",
              DetailsNonNil := true }, ?_, ?_, ?_⟩
    · simp [processEvent, hc]
    · intro h
      exact payloadString_of_not_present _ _ h
    · intro h
      exact payloadString_of_not_present _ _ h

/-- Witness for claim C6: an event of another kind yields nothing, and an
allowed event whose NodeID payload field is not a string yields an event
with an empty NodeID. -/
theorem processEvent_allowlist_witness :
    processEvent { EvType := "SomeOtherEvent", Index := 1, Payload := none } = none
      ∧ ∃ ev, processEvent { EvType := "AllocationUpdated", Index := 2,
                             Payload := some [("NodeID", PayloadVal.other)] } = some ev
            ∧ ev.NodeID = "" := by
  constructor
  · exact (processEvent_allowlist
      { EvType := "SomeOtherEvent", Index := 1, Payload := none }).1 (by decide)
  · obtain ⟨ev, h1, h2, h3⟩ := (processEvent_allowlist
      { EvType := "AllocationUpdated", Index := 2,
        Payload := some [("NodeID", PayloadVal.other)] }).2 (by decide)
    exact ⟨ev, h1, h2 rfl⟩

/-- Claim C8 counterexample: an environment with the Cloudflare token, the
zone id and the Nomad token set but TRAEFIK_JOB_NAME and DNS_RECORD_NAME
unset makes LoadConfig return a configuration with no error, although the
claim demands an error whenever the target job name or hostname is
missing. -/
theorem LoadConfig_missing_name_accepted :
    (fun k => if k = "CLOUDFLARE_API_TOKEN" then "t"
       else if k = "CLOUDFLARE_ZONE_ID" then "z"
       else if k = "NOMAD_TOKEN" then "n" else "") "DNS_RECORD_NAME" = ""
      ∧ (fun k => if k = "CLOUDFLARE_API_TOKEN" then "t"
          else if k = "CLOUDFLARE_ZONE_ID" then "z"
          else if k = "NOMAD_TOKEN" then "n" else "") "TRAEFIK_JOB_NAME" = ""
      ∧ LoadConfig (fun k => if k = "CLOUDFLARE_API_TOKEN" then "t"
          else if k = "CLOUDFLARE_ZONE_ID" then "z"
          else if k = "NOMAD_TOKEN" then "n" else "")
        = Except.ok { NomadAddress := "http://localhost:8686", NomadToken := "n",
                      CloudflareToken := "t", CloudflareZoneId := "z",
                      TraefikJobName := "", DNSRecordName := "", LogLevel := "info" }
    := by
  refine ⟨rfl, rfl, rfl⟩

/-- Claim C8 as amended: LoadConfig returns a configuration exactly when
the Cloudflare token, the Cloudflare zone id and the Nomad token are all
non-empty; the target job name and the DNS record name are not validated
and their absence does not prevent startup. -/
theorem LoadConfig_ok_iff (env : String → String) :
    (∃ c, LoadConfig env = Except.ok c) ↔
      (env "CLOUDFLARE_API_TOKEN" ≠ "" ∧ env "CLOUDFLARE_ZONE_ID" ≠ ""
        ∧ env "NOMAD_TOKEN" ≠ "") := by
  by_cases h1 : env "CLOUDFLARE_API_TOKEN" = "" <;>
    by_cases h2 : env "CLOUDFLARE_ZONE_ID" = "" <;>
      by_cases h3 : env "NOMAD_TOKEN" = "" <;>
        simp [LoadConfig, h1, h2, h3]


/-! Lemmas for the node resolver, and the remaining claims. -/

theorem nodeMapStep_inv (nodeLookup : String → Option NomadNode)
    (m : List (String × NodeInfo)) (alloc : Allocation)
    (h1 : (m.map Prod.fst).Nodup) (h2 : ∀ p ∈ m, p.2.ID = p.1) :
    ((nodeMapStep nodeLookup m alloc).map Prod.fst).Nodup
      ∧ ∀ p ∈ nodeMapStep nodeLookup m alloc, p.2.ID = p.1 := by
  rw [nodeMapStep]
  split
  · cases hnode : nodeLookup alloc.NodeID with
    | none => exact ⟨h1, h2⟩
    | some node =>
      refine ⟨insertMap_keys_nodup _ _ _ h1, ?_⟩
      intro p hp
      rcases mem_insertMap _ _ _ _ hp with hm | hm
      · exact h2 p hm
      · rw [hm]
        rfl
  · exact ⟨h1, h2⟩

theorem foldl_nodeMapStep_inv (nodeLookup : String → Option NomadNode)
    (allocations : List Allocation) (m : List (String × NodeInfo))
    (h1 : (m.map Prod.fst).Nodup) (h2 : ∀ p ∈ m, p.2.ID = p.1) :
    ((allocations.foldl (nodeMapStep nodeLookup) m).map Prod.fst).Nodup
      ∧ ∀ p ∈ allocations.foldl (nodeMapStep nodeLookup) m, p.2.ID = p.1 := by
  induction allocations generalizing m with
  | nil => exact ⟨h1, h2⟩
  | cons a allocs ih =>
    simp only [List.foldl_cons]
    obtain ⟨g1, g2⟩ := nodeMapStep_inv nodeLookup m a h1 h2
    exact ih _ g1 g2

theorem getTraefikNodes_ids_nodup (nodeLookup : String → Option NomadNode)
    (allocations : List Allocation) :
    ((getTraefikNodes nodeLookup allocations).map (fun n => n.ID)).Nodup := by
  obtain ⟨h1, h2⟩ := foldl_nodeMapStep_inv nodeLookup allocations []
    (by simp) (by intro p hp; simp at hp)
  rw [getTraefikNodes, List.map_map]
  have hcongr : (allocations.foldl (nodeMapStep nodeLookup) []).map
        ((fun n => n.ID) ∘ Prod.snd)
      = (allocations.foldl (nodeMapStep nodeLookup) []).map Prod.fst := by
    refine List.map_congr_left ?_
    intro p hp
    exact h2 p hp
  rw [hcongr]
  exact h1

/-- Claim C9: however many running allocations reference the same node id,
the resolver result holds at most one node entry carrying that id. -/
theorem getTraefikNodes_dedup (nodeLookup : String → Option NomadNode)
    (allocations : List Allocation) (id : String) :
    ((getTraefikNodes nodeLookup allocations).filter (fun n => n.ID == id)).length ≤ 1 := by
  have hnd := getTraefikNodes_ids_nodup nodeLookup allocations
  have hcount := List.nodup_iff_count_le_one.mp hnd id
  rw [List.count_eq_countP, List.countP_map] at hcount
  rw [← List.countP_eq_length_filter]
  exact hcount

/-- Claim C1 counterexample: two observed records share the undesired
content 1.1.1.1; the pass issues a single delete call, for the record id
written last into the content map, instead of one delete call per such
record as the claim demands. -/
theorem syncOps_per_record_delete_refuted :
    (syncOps ["2.2.2.2"]
        [{ ID := "a", Name := "h", RType := "A", Content := "1.1.1.1", TTL := 0 },
         { ID := "b", Name := "h", RType := "A", Content := "1.1.1.1", TTL := 0 }]).1
      = ["b"]
      ∧ (([{ ID := "a", Name := "h", RType := "A", Content := "1.1.1.1", TTL := 0 },
           { ID := "b", Name := "h", RType := "A", Content := "1.1.1.1", TTL := 0 }]
            : List DNSRecord).filter
            (fun r => !(["2.2.2.2"].contains r.Content))).map (fun r => r.ID)
        = ["a", "b"] := by
  constructor <;> rfl

/-- Claim C1 as amended: provided the observed records carry pairwise
distinct contents (the provider-anomaly-free case) and the desired set is
duplicate-free, the pass deletes exactly the records whose content is not
desired, one call per record, and creates exactly the desired addresses no
record carries, one call per address; records whose content is desired are
referenced by no operation. -/
theorem syncOps_diff_correct (D : List String) (R : List DNSRecord)
    (hD : D.Nodup) (hR : (R.map (fun r => r.Content)).Nodup) :
    (syncOps D R).1 = (R.filter (fun r => !(D.contains r.Content))).map (fun r => r.ID)
      ∧ (syncOps D R).2 = D.filter (fun a => !((R.map (fun r => r.Content)).contains a))
      ∧ (syncOps D R).2.Nodup := by
  refine ⟨syncOps_deletes_of_nodup D R hR, syncOps_creates D R, ?_⟩
  rw [syncOps_creates]
  exact hD.filter _

/-- Witness for claim C1, on the specification's own scenario: records
with contents 1.1.1.1 and 2.2.2.2, desired set 1.1.1.1 and 3.3.3.3; the
record carrying 2.2.2.2 is deleted and only 3.3.3.3 is created. -/
theorem syncOps_diff_correct_witness :
    (syncOps ["1.1.1.1", "3.3.3.3"]
        [{ ID := "A1", Name := "h", RType := "A", Content := "1.1.1.1", TTL := 0 },
         { ID := "B1", Name := "h", RType := "A", Content := "2.2.2.2", TTL := 0 }]).1
      = ["B1"]
      ∧ (syncOps ["1.1.1.1", "3.3.3.3"]
          [{ ID := "A1", Name := "h", RType := "A", Content := "1.1.1.1", TTL := 0 },
           { ID := "B1", Name := "h", RType := "A", Content := "2.2.2.2", TTL := 0 }]).2
        = ["3.3.3.3"] := by
  have h := syncOps_diff_correct ["1.1.1.1", "3.3.3.3"]
    [{ ID := "A1", Name := "h", RType := "A", Content := "1.1.1.1", TTL := 0 },
     { ID := "B1", Name := "h", RType := "A", Content := "2.2.2.2", TTL := 0 }]
    (by decide) (by decide)
  exact ⟨h.1.trans rfl, h.2.1.trans rfl⟩


theorem lastIdFor_spec (R : List DNSRecord) (c x : String)
    (h : lastIdFor R c = some x) : ∃ r ∈ R, r.Content = c ∧ r.ID = x := by
  simp only [lastIdFor, Option.map_eq_some'] at h
  obtain ⟨r, hr, hx⟩ := h
  refine ⟨r, List.mem_reverse.mp (List.mem_of_find?_eq_some hr), ?_, hx⟩
  simpa using List.find?_some hr

theorem buildTargets_values_nodup (R : List DNSRecord)
    (hid : (R.map (fun r => r.ID)).Nodup) :
    ((buildTargets R).map Prod.snd).Nodup := by
  have hBnd : (buildTargets R).Nodup :=
    List.Nodup.of_map Prod.fst (buildTargets_keys_nodup R)
  refine List.Nodup.map_on ?_ hBnd
  intro p hp q hq hpq
  obtain ⟨rp, hrp, hrpc, hrpi⟩ := lastIdFor_spec R p.1 p.2 (mem_buildTargets_val R p hp)
  obtain ⟨rq, hrq, hrqc, hrqi⟩ := lastIdFor_spec R q.1 q.2 (mem_buildTargets_val R q hq)
  have hre : rp = rq :=
    List.inj_on_of_nodup_map hid hrp hrq (by rw [hrpi, hrqi, hpq])
  have hkey : p.1 = q.1 := by rw [← hrpc, hre, hrqc]
  obtain ⟨p1, p2⟩ := p
  obtain ⟨q1, q2⟩ := q
  simp_all

theorem syncOps_deletes_nodup (D : List String) (R : List DNSRecord) (hD : D ≠ [])
    (hid : (R.map (fun r => r.ID)).Nodup) : (syncOps D R).1.Nodup := by
  rw [syncOps_pos D R hD]
  have hsub : List.Sublist
      (((buildTargets R).filter (fun p => !(D.contains p.1))).map Prod.snd)
      ((buildTargets R).map Prod.snd) :=
    (List.filter_sublist (buildTargets R)).map Prod.snd
  exact hsub.nodup (buildTargets_values_nodup R hid)

/-- Claim C10: with a non-empty desired set, when several observed records
share one content value that is not desired, the pass issues exactly one
delete call for that content, aimed at the id of the record listed last
(the id that was written last into the content-to-id map); the sibling
records with the same content receive no delete call in that pass. -/
theorem syncOps_duplicate_content_single_delete
    (D : List String) (R : List DNSRecord) (c : String)
    (hD : D ≠ []) (hc : c ∉ D)
    (hdup : 2 ≤ (R.filter (fun r => r.Content == c)).length)
    (hid : (R.map (fun r => r.ID)).Nodup) :
    ∃ rl, R.reverse.find? (fun r => r.Content == c) = some rl
      ∧ rl.Content = c
      ∧ (syncOps D R).1.count rl.ID = 1
      ∧ ∀ r ∈ R, r.Content = c → r.ID ≠ rl.ID → r.ID ∉ (syncOps D R).1 := by
  obtain ⟨rl, hfind⟩ : ∃ rl, R.reverse.find? (fun r => r.Content == c) = some rl := by
    have hlen : 0 < (R.filter (fun r => r.Content == c)).length := by omega
    obtain ⟨r0, hr0⟩ := List.exists_mem_of_length_pos hlen
    have hr0R : r0 ∈ R := List.mem_of_mem_filter hr0
    have hr0c : (r0.Content == c) = true := (List.mem_filter.mp hr0).2
    have hsome : (R.reverse.find? (fun r => r.Content == c)).isSome :=
      List.find?_isSome.mpr ⟨r0, List.mem_reverse.mpr hr0R, hr0c⟩
    exact Option.isSome_iff_exists.mp hsome
  have hrlc : rl.Content = c := by simpa using List.find?_some hfind
  have hlast : lastIdFor R c = some rl.ID := by simp [lastIdFor, hfind]
  have hmem : rl.ID ∈ (syncOps D R).1 :=
    (mem_syncOps_deletes D R hD rl.ID).mpr ⟨c, hc, hlast⟩
  have hnodup := syncOps_deletes_nodup D R hD hid
  refine ⟨rl, hfind, hrlc, List.count_eq_one_of_mem hnodup hmem, ?_⟩
  intro r hr hrc hrne hmem2
  obtain ⟨c2, hc2, hlast2⟩ := (mem_syncOps_deletes D R hD r.ID).mp hmem2
  obtain ⟨r2, hr2, hr2c, hr2i⟩ := lastIdFor_spec R c2 r.ID hlast2
  obtain rfl : r2 = r := List.inj_on_of_nodup_map hid hr2 hr hr2i
  have hcc : c2 = c := by rw [← hr2c, hrc]
  rw [hcc, hlast] at hlast2
  injection hlast2 with hlid
  exact hrne hlid.symm

/-- Claim C7 counterexample: with two observed records sharing the
undesired content 1.1.1.1, applying the computed operations leaves one of
them alive, so the post-convergence content set is not the desired set and
a second pass still finds work to do. -/
theorem syncOps_roundtrip_refuted :
    (([{ ID := "n", Name := "h", RType := "A", Content := "2.2.2.2", TTL := 0 }]
        : List DNSRecord).map (fun r => r.Content)
      = (syncOps ["2.2.2.2"]
          [{ ID := "a", Name := "h", RType := "A", Content := "1.1.1.1", TTL := 0 },
           { ID := "b", Name := "h", RType := "A", Content := "1.1.1.1", TTL := 0 }]).2)
      ∧ "1.1.1.1" ∈ (applyOps ["2.2.2.2"]
          [{ ID := "a", Name := "h", RType := "A", Content := "1.1.1.1", TTL := 0 },
           { ID := "b", Name := "h", RType := "A", Content := "1.1.1.1", TTL := 0 }]
          [{ ID := "n", Name := "h", RType := "A", Content := "2.2.2.2", TTL := 0 }]).map
            (fun r => r.Content)
      ∧ "1.1.1.1" ∉ ["2.2.2.2"]
      ∧ syncOps ["2.2.2.2"] (applyOps ["2.2.2.2"]
          [{ ID := "a", Name := "h", RType := "A", Content := "1.1.1.1", TTL := 0 },
           { ID := "b", Name := "h", RType := "A", Content := "1.1.1.1", TTL := 0 }]
          [{ ID := "n", Name := "h", RType := "A", Content := "2.2.2.2", TTL := 0 }])
        ≠ ([], []) := by
  refine ⟨rfl, by decide, by decide, by decide⟩

/-- Claim C7 as amended: provided the observed records carry pairwise
distinct ids and pairwise distinct contents, applying the computed delete
and create operations yields a record set whose contents are exactly the
desired addresses, and a second pass computes no operation at all. -/
theorem syncOps_roundtrip (D : List String) (R newRecords : List DNSRecord)
    (hR : (R.map (fun r => r.Content)).Nodup)
    (hid : (R.map (fun r => r.ID)).Nodup)
    (hnew : newRecords.map (fun r => r.Content) = (syncOps D R).2) :
    (∀ a, (a ∈ (applyOps D R newRecords).map (fun r => r.Content)) ↔ a ∈ D)
      ∧ syncOps D (applyOps D R newRecords) = ([], []) := by
  have hdels : (syncOps D R).1
      = (R.filter (fun r => !(D.contains r.Content))).map (fun r => r.ID) :=
    syncOps_deletes_of_nodup D R hR
  have key : ∀ r ∈ R, (r.ID ∈ (syncOps D R).1 ↔ r.Content ∉ D) := by
    intro r hr
    constructor
    · intro hmem
      rw [hdels] at hmem
      simp only [List.mem_map, List.mem_filter] at hmem
      obtain ⟨r2, ⟨hr2, hcond⟩, hide⟩ := hmem
      obtain rfl : r2 = r := List.inj_on_of_nodup_map hid hr2 hr hide
      simpa using hcond
    · intro hnd
      rw [hdels]
      simp only [List.mem_map, List.mem_filter]
      exact ⟨r, ⟨hr, by simpa using hnd⟩, rfl⟩
  have hkept : R.filter (fun r => !((syncOps D R).1.contains r.ID))
      = R.filter (fun r => D.contains r.Content) := by
    refine List.filter_congr ?_
    intro r hr
    show (!((syncOps D R).1.contains r.ID)) = D.contains r.Content
    by_cases hmem : r.Content ∈ D
    · have h1 : r.ID ∉ (syncOps D R).1 := fun hcontra => ((key r hr).mp hcontra) hmem
      have h2 : (syncOps D R).1.contains r.ID = false := by
        simpa [List.contains] using h1
      have h3 : D.contains r.Content = true := by simpa [List.contains] using hmem
      rw [h2, h3]
      rfl
    · have h1 : r.ID ∈ (syncOps D R).1 := (key r hr).mpr hmem
      have h2 : (syncOps D R).1.contains r.ID = true := by
        simpa [List.contains] using h1
      have h3 : D.contains r.Content = false := by simpa [List.contains] using hmem
      rw [h2, h3]
      rfl
  have hcontents : ∀ a,
      (a ∈ (applyOps D R newRecords).map (fun r => r.Content)) ↔ a ∈ D := by
    intro a
    rw [applyOps, List.map_append, List.mem_append, hkept, hnew, syncOps_creates]
    constructor
    · rintro (h | h)
      · simp only [List.mem_map, List.mem_filter] at h
        obtain ⟨r, ⟨hr, hcond⟩, ha⟩ := h
        rw [← ha]
        simpa using hcond
      · exact List.mem_of_mem_filter h
    · intro ha
      by_cases hmem : a ∈ R.map (fun r => r.Content)
      · left
        rcases List.mem_map.mp hmem with ⟨r, hr, hra⟩
        simp only [List.mem_map, List.mem_filter]
        refine ⟨r, ⟨hr, ?_⟩, hra⟩
        simpa [hra] using ha
      · right
        simp only [List.mem_filter]
        refine ⟨ha, ?_⟩
        simpa using hmem
  refine ⟨hcontents, ?_⟩
  cases D with
  | nil =>
    have hA : applyOps [] R newRecords = [] := by
      have hmapnil : (applyOps [] R newRecords).map (fun r => r.Content) = [] := by
        rw [List.eq_nil_iff_forall_not_mem]
        intro a ha
        exact absurd ((hcontents a).mp ha) (List.not_mem_nil a)
      exact List.map_eq_nil_iff.mp hmapnil
    rw [hA, syncOps_nil_left]
    rfl
  | cons d D2 =>
    rw [syncOps_pos _ _ (by simp)]
    have hfil : (buildTargets (applyOps (d :: D2) R newRecords)).filter
        (fun p => !((d :: D2).contains p.1)) = [] := by
      rw [List.filter_eq_nil_iff]
      intro p hp
      have hkey2 : p.1 ∈ (applyOps (d :: D2) R newRecords).map (fun r => r.Content) :=
        mem_buildTargets_key _ p hp
      have hpD : p.1 ∈ d :: D2 := (hcontents p.1).mp hkey2
      simp [hpD]
    have hcr : (d :: D2).filter
        (fun ip => (lookupMap (buildTargets (applyOps (d :: D2) R newRecords)) ip).isNone)
        = [] := by
      rw [List.filter_eq_nil_iff]
      intro a ha
      have haA : a ∈ (applyOps (d :: D2) R newRecords).map (fun r => r.Content) :=
        (hcontents a).mpr ha
      have hlook : lookupMap (buildTargets (applyOps (d :: D2) R newRecords)) a ≠ none := by
        simp [lookup_buildTargets, lastIdFor_eq_none_iff, haA]
      cases hopt : lookupMap (buildTargets (applyOps (d :: D2) R newRecords)) a with
      | none => exact absurd hopt hlook
      | some v => simp [hopt]
    rw [hfil, hcr]
    rfl

/-- Witness for claim C7, on the specification's own scenario: records for
1.1.1.1 and 2.2.2.2, desired set 1.1.1.1 and 3.3.3.3, one created record
for 3.3.3.3; afterwards the content set is the desired set and the next
pass computes nothing. -/
theorem syncOps_roundtrip_witness :
    syncOps ["1.1.1.1", "3.3.3.3"]
        (applyOps ["1.1.1.1", "3.3.3.3"]
          [{ ID := "A1", Name := "h", RType := "A", Content := "1.1.1.1", TTL := 0 },
           { ID := "B1", Name := "h", RType := "A", Content := "2.2.2.2", TTL := 0 }]
          [{ ID := "C1", Name := "h", RType := "A", Content := "3.3.3.3", TTL := 0 }])
      = ([], [])
      ∧ ("3.3.3.3" ∈ (applyOps ["1.1.1.1", "3.3.3.3"]
          [{ ID := "A1", Name := "h", RType := "A", Content := "1.1.1.1", TTL := 0 },
           { ID := "B1", Name := "h", RType := "A", Content := "2.2.2.2", TTL := 0 }]
          [{ ID := "C1", Name := "h", RType := "A", Content := "3.3.3.3", TTL := 0 }]).map
            (fun r => r.Content) ↔ "3.3.3.3" ∈ ["1.1.1.1", "3.3.3.3"]) := by
  have h := syncOps_roundtrip ["1.1.1.1", "3.3.3.3"]
    [{ ID := "A1", Name := "h", RType := "A", Content := "1.1.1.1", TTL := 0 },
     { ID := "B1", Name := "h", RType := "A", Content := "2.2.2.2", TTL := 0 }]
    [{ ID := "C1", Name := "h", RType := "A", Content := "3.3.3.3", TTL := 0 }]
    (by decide) (by decide) rfl
  exact ⟨h.2, h.1 "3.3.3.3"⟩


/-- Witness for claim C10: two records a and b share the undesired content
1.1.1.1 while 9.9.9.9 is desired; the single delete call goes to b, the id
written last into the map, and a receives none. -/
theorem syncOps_duplicate_content_single_delete_witness :
    ∃ rl, (([{ ID := "a", Name := "h", RType := "A", Content := "1.1.1.1", TTL := 0 },
             { ID := "b", Name := "h", RType := "A", Content := "1.1.1.1", TTL := 0 }]
            : List DNSRecord)).reverse.find? (fun r => r.Content == "1.1.1.1") = some rl
      ∧ rl.Content = "1.1.1.1"
      ∧ (syncOps ["9.9.9.9"]
          [{ ID := "a", Name := "h", RType := "A", Content := "1.1.1.1", TTL := 0 },
           { ID := "b", Name := "h", RType := "A", Content := "1.1.1.1", TTL := 0 }]).1.count
          rl.ID = 1
      ∧ ∀ r ∈ (([{ ID := "a", Name := "h", RType := "A", Content := "1.1.1.1", TTL := 0 },
                 { ID := "b", Name := "h", RType := "A", Content := "1.1.1.1", TTL := 0 }]
                : List DNSRecord)), r.Content = "1.1.1.1" → r.ID ≠ rl.ID →
          r.ID ∉ (syncOps ["9.9.9.9"]
            [{ ID := "a", Name := "h", RType := "A", Content := "1.1.1.1", TTL := 0 },
             { ID := "b", Name := "h", RType := "A", Content := "1.1.1.1", TTL := 0 }]).1 :=
  syncOps_duplicate_content_single_delete _ _ _ (by decide) (by decide) (by decide)
    (by decide)

end Controller
